import Mathlib

/-!
Verification development for the edge/databank repository.

Go strings are modelled as lists of bytes (`GoStr`), Go `time.Time` and
`time.Duration` as integers (nanoseconds), Go `error` values as `Option Err`
(`none` = nil error), and Go pointers `*Entry` as `Option Entry`.
All machine arithmetic that can overflow (the 64-bit FNV hash) is done on
`Nat` with explicit reduction modulo `2 ^ 64`.
-/

/-- A Go string, as its list of bytes. -/
abbrev GoStr := List Nat

/-- Opaque Go error values (only identity matters to the code under study). -/
abbrev Err := Nat

namespace Databank

/-! ## Entry model (src/entry.go) -/

/-- `EntryMetadata` from src/entry.go: created/expires timestamps (ns),
`expiresNever` and the sticky `expired` flag. -/
structure EntryMetadata where
  created : Int
  expires : Int
  expiresNever : Bool
  expired : Bool
deriving DecidableEq, Repr

/-- `Entry` from src/entry.go. Tags are an association list representing the
Go map; the list order stands for the (unspecified) map iteration order. -/
structure Entry where
  content : List Nat
  key : GoStr
  size : Int
  tags : List (GoStr × GoStr)
  meta : EntryMetadata
deriving DecidableEq, Repr

/-- `NewEntry(key, ttl)` at current time `now`. -/
def NewEntry (key : GoStr) (ttl : Int) (now : Int) : Entry :=
  { content := []
    key := key
    size := 0
    tags := []
    meta :=
      { created := now
        expires := now + ttl
        expiresNever := ttl == 0
        expired := false } }

/-- `Entry.CalculateSize`: `e.Size = len(e.Content)`. -/
def Entry.CalculateSize (e : Entry) : Entry :=
  { e with size := (e.content.length : Int) }

/-- `Entry.Expire`: marks the entry expired. -/
def Entry.Expire (e : Entry) : Entry :=
  { e with meta := { e.meta with expired := true } }

/-- `Entry.Lifetime`: `Expires.Sub(Created)`. -/
def Entry.Lifetime (e : Entry) : Int :=
  e.meta.expires - e.meta.created

/-- `Entry.ShouldExpire` at current time `now`:
`if Expired || ExpiresNever { false }; return Expires.Before(now)`.
`time.Time.Before` is a strict comparison. -/
def Entry.ShouldExpire (e : Entry) (now : Int) : Bool :=
  if e.meta.expired || e.meta.expiresNever then false
  else decide (e.meta.expires < now)

/-- `Entry.MaybeExpire` at current time `now`: expires the entry if it
`ShouldExpire()`; returns whether it did, and the (possibly updated) entry. -/
def Entry.MaybeExpire (e : Entry) (now : Int) : Bool × Entry :=
  let se := e.ShouldExpire now
  (se, if se then e.Expire else e)

/-- `Entry.Touch` at current time `now`. The Go code first assigns
`e.Meta.Created = time.Now()` and only then computes
`e.Meta.Expires = e.Meta.Created.Add(e.Lifetime())`, so `Lifetime()` is
evaluated with the already-updated `created`. -/
def Entry.Touch (e : Entry) (now : Int) : Entry :=
  let e1 : Entry := { e with meta := { e.meta with created := now } }
  { e1 with meta := { e1.meta with expires := e1.meta.created + e1.Lifetime } }

/-! ## Entry identity (src/entry.go `EntryID`, src/hasher.go `sum64`) -/

def offset64 : Nat := 14695981039346656037

def prime64 : Nat := 1099511628211

/-- `sum64` from src/hasher.go: 64-bit FNV-1a over the bytes of the string,
with the multiplication reduced modulo `2 ^ 64`. -/
def sum64 (key : GoStr) : Nat :=
  key.foldl (fun hash b => ((hash ^^^ b) * prime64) % 2 ^ 64) offset64

/-- Go map index expression `tags[k]` (zero value `""` when absent). -/
def lookupTag : List (GoStr × GoStr) → GoStr → GoStr
  | [], _ => []
  | (k, v) :: rest, q => if k = q then v else lookupTag rest q

/-- Decimal ASCII digits of `n` (the `%d` verb), with fuel. -/
def decDigitsAux : Nat → Nat → GoStr
  | 0, _ => []
  | fuel + 1, n =>
    if n < 10 then [48 + n]
    else decDigitsAux fuel (n / 10) ++ [48 + n % 10]

/-- Decimal ASCII digits of `n` (the `%d` verb of `fmt.Sprintf`). -/
def decDigits (n : Nat) : GoStr := decDigitsAux (n + 1) n

/-- The canonical tag string of `EntryID`: tag keys sorted ascending
(bytewise, as `sort.Strings` does), each appended as `"&" ++ k ++ "=" ++ v`. -/
def canonTagStr (tags : List (GoStr × GoStr)) : GoStr :=
  let keys := tags.map Prod.fst
  let sorted := keys.insertionSort (· ≤ ·)
  sorted.foldl (fun s k => s ++ [38] ++ k ++ [61] ++ lookupTag tags k) []

/-- `EntryID(key, tags)` from src/entry.go: the key itself when there are no
tags, otherwise `key + "_" + %d(sum64(canonical tag string))`. -/
def EntryID (key : GoStr) (tags : List (GoStr × GoStr)) : GoStr :=
  if tags.length > 0 then
    key ++ [95] ++ decDigits (sum64 (canonTagStr tags))
  else key

/-- `Entry.ID`: `EntryID(e.Key, e.Tags)`. -/
def Entry.ID (e : Entry) : GoStr := EntryID e.key e.tags

/-! ## Driver model (src/databank.go `Driver` interface)

A driver is a state type `σ` together with the operations the sync driver
uses. Each operation returns its Go results plus the driver's new state. -/

/-- Result of `Driver.Read`: `(*Entry, bool, error)` plus the new state. -/
structure ReadRes (σ : Type) where
  entry : Option Entry
  ok : Bool
  err : Option Err
  st : σ

/-- Result of `Driver.Write` / `Driver.Delete`: `(bool, error)` plus state. -/
structure OpRes (σ : Type) where
  ok : Bool
  err : Option Err
  st : σ

/-- Result of `Driver.Scan`: `([]string, bool, error)` plus state. -/
structure ScanRes (σ : Type) where
  ids : List GoStr
  ok : Bool
  err : Option Err
  st : σ

/-- The operations of the `databank.Driver` interface used by `SyncDriver`.
`write` takes an `Option Entry` because Go passes a (possibly nil) pointer. -/
structure DriverOps (σ : Type) where
  read : σ → GoStr → ReadRes σ
  write : σ → Option Entry → OpRes σ
  delete : σ → GoStr → OpRes σ
  scan : σ → ScanRes σ

/-- One tier of a `SyncDriver`: its operations and its current state. -/
abbrev Tier (σ : Type) := DriverOps σ × σ

/-- A record of one driver call made by the sync driver, with the tier index
it was made on and the results the tier returned. -/
inductive Ev where
  | read (tier : Nat) (id : GoStr) (entry : Option Entry) (ok : Bool) (err : Option Err)
  | write (tier : Nat) (e : Option Entry) (ok : Bool) (err : Option Err)
  | delete (tier : Nat) (id : GoStr) (ok : Bool) (err : Option Err)
  | scan (tier : Nat) (ids : List GoStr) (ok : Bool) (err : Option Err)
deriving DecidableEq, Repr

/-- Whether an event is a read (as opposed to a write/delete/scan). -/
def Ev.isRead : Ev → Bool
  | .read _ _ _ _ _ => true
  | _ => false

/-- Result of `SyncDriver.Read`: the Go return values, the tiers in their
final states, and the trace of driver calls performed. -/
structure SyncReadOut (σ : Type) where
  entry : Option Entry
  ok : Bool
  err : Option Err
  tiers : List (Tier σ)
  trace : List Ev

/-- Result of a `(bool, error)` operation of `SyncDriver`, with the final
tier states and the trace of driver calls performed. -/
structure SyncOpOut (σ : Type) where
  ok : Bool
  err : Option Err
  tiers : List (Tier σ)
  trace : List Ev

/-! ## SyncDriver (src/pkg/proxy/sync.go) -/

variable {σ : Type}

/-- `SyncDriver.Read` (src/pkg/proxy/sync.go): try each tier front-to-back;
a tier error aborts; the first hit is returned, and after the loop the hit
value is written back into each tier that missed, in back-to-front order
among them (results of those writes are ignored). A tier answering
`ok=true` with a nil entry leaves `result == nil`, so the function returns
a plain miss and performs no write-back. `i` is the index of the first tier
in `ts` (used only for the trace). -/
def syncReadAux (i : Nat) : List (Tier σ) → GoStr → SyncReadOut σ
  | [], _ => ⟨none, false, none, [], []⟩
  | t :: rest, id =>
    let r := t.1.read t.2 id
    let ev := Ev.read i id r.entry r.ok r.err
    match r.err with
    | some er => ⟨none, false, some er, (t.1, r.st) :: rest, [ev]⟩
    | none =>
      if r.ok then
        match r.entry with
        | some found => ⟨some found, true, none, (t.1, r.st) :: rest, [ev]⟩
        | none => ⟨none, false, none, (t.1, r.st) :: rest, [ev]⟩
      else
        let d := syncReadAux (i + 1) rest id
        match d.entry with
        | some found =>
          let w := t.1.write r.st (some found)
          ⟨some found, true, none, (t.1, w.st) :: d.tiers,
            ev :: d.trace ++ [Ev.write i (some found) w.ok w.err]⟩
        | none => ⟨none, d.ok, d.err, (t.1, r.st) :: d.tiers, ev :: d.trace⟩

/-- `SyncDriver.Read` on the full tier list. -/
def syncRead (ts : List (Tier σ)) (id : GoStr) : SyncReadOut σ :=
  syncReadAux 0 ts id

/-- The forward write pass of `SyncDriver.Write`, with the rollback that
runs when a tier's write errors. Tiers are written front-to-back; on the
first write error the loop stops and every tier that had reported a
successful write is revisited in back-to-front order: `origE` is written
back if it exists, otherwise `id` is deleted (rollback results ignored).
In this recursion the deeper tiers' rollbacks are placed before this
tier's in the trace, matching the Go reverse loop. -/
def syncWriteLoop (i : Nat) (e : Entry) (id : GoStr) (origE : Option Entry) :
    List (Tier σ) → SyncOpOut σ
  | [] => ⟨true, none, [], []⟩
  | t :: rest =>
    let w := t.1.write t.2 (some e)
    let ev := Ev.write i (some e) w.ok w.err
    match w.err with
    | some er => ⟨false, some er, (t.1, w.st) :: rest, [ev]⟩
    | none =>
      let d := syncWriteLoop (i + 1) e id origE rest
      if w.ok then
        match d.err with
        | some _ =>
          match origE with
          | some oe =>
            let rb := t.1.write w.st (some oe)
            ⟨false, d.err, (t.1, rb.st) :: d.tiers,
              ev :: d.trace ++ [Ev.write i (some oe) rb.ok rb.err]⟩
          | none =>
            let rb := t.1.delete w.st id
            ⟨false, d.err, (t.1, rb.st) :: d.tiers,
              ev :: d.trace ++ [Ev.delete i id rb.ok rb.err]⟩
        | none => ⟨d.ok, none, (t.1, w.st) :: d.tiers, ev :: d.trace⟩
      else
        ⟨false, d.err, (t.1, w.st) :: d.tiers, ev :: d.trace⟩

/-- `SyncDriver.Write` (src/pkg/proxy/sync.go): first read the entry's
prior value through the sync driver itself (an error there aborts), then
run the forward write pass with rollback-on-error. -/
def syncWrite (ts : List (Tier σ)) (e : Entry) : SyncOpOut σ :=
  let id := e.ID
  let r := syncRead ts id
  match r.err with
  | some er => ⟨false, some er, r.tiers, r.trace⟩
  | none =>
    let w := syncWriteLoop 0 e id r.entry r.tiers
    ⟨w.ok, w.err, w.tiers, r.trace ++ w.trace⟩

/-- `SyncDriver.DeleteAggregate` (src/pkg/proxy/sync.go): delete from every
tier, iterating back-to-front (`drivers[len-(i+1)]`), collecting each
tier's `ok` and `err` — including nil errors — in visit order. -/
def syncDeleteAggregate (i : Nat) : List (Tier σ) → GoStr →
    List Bool × List (Option Err) × List (Tier σ) × List Ev
  | [], _ => ([], [], [], [])
  | t :: rest, id =>
    let d := syncDeleteAggregate (i + 1) rest id
    let r := t.1.delete t.2 id
    (d.1 ++ [r.ok], d.2.1 ++ [r.err], (t.1, r.st) :: d.2.2.1,
      d.2.2.2 ++ [Ev.delete i id r.ok r.err])

/-- `SyncDriver.Delete` (src/pkg/proxy/sync.go): run `DeleteAggregate`,
AND together the per-tier `ok`s (false when there are no tiers), and when
the errors slice is non-empty return its last element — which is the error
value (possibly nil) of the front-most tier, since the slice was filled in
back-to-front visit order. -/
def syncDelete (ts : List (Tier σ)) (id : GoStr) : SyncOpOut σ :=
  let (oks, errs, ts', tr) := syncDeleteAggregate 0 ts id
  let ok := decide (oks.length > 0) && oks.all (fun b => b)
  match errs.getLast? with
  | some e => ⟨ok, e, ts', tr⟩
  | none => ⟨ok, none, ts', tr⟩

/-- `SyncDriver.Expire` (src/pkg/proxy/sync.go): read through the sync
driver; on error abort; on a hit, expire the entry and write it back
through the sync driver; on a miss return `(true, nil)`.
(The hit branch with a nil entry cannot occur: `syncReadAux` only reports
`ok = true` together with a present entry; Go would dereference nil.) -/
def syncExpire (ts : List (Tier σ)) (id : GoStr) : SyncOpOut σ :=
  let r := syncRead ts id
  match r.err with
  | some er => ⟨false, some er, r.tiers, r.trace⟩
  | none =>
    if r.ok then
      match r.entry with
      | some e =>
        let w := syncWrite r.tiers e.Expire
        ⟨w.ok, w.err, w.tiers, r.trace ++ w.trace⟩
      | none => ⟨false, none, r.tiers, r.trace⟩
    else ⟨true, none, r.tiers, r.trace⟩

/-! ### SyncDriver.Restore (src/pkg/proxy/sync.go)

`Restore` scans the authority, and for each id reads the entry from the
authority and writes it into every non-authority tier. The Go inner loop
`for i := range d.drivers { if i == 0 { continue }; driver :=
d.drivers[len(d.drivers)-(i+1)]; ... }` visits exactly the tiers at indices
`n-2, n-3, …, 0`, i.e. the non-authority tiers in reverse order; here the
tier list is split into `fronts` (indices `0..n-2`) and the authority, and
the inner loop receives `fronts.reverse`. -/

/-- Result of the copy pass of `Restore` over the reversed front tiers. -/
structure RestoreCopyOut (σ : Type) where
  ok : Bool
  errs : List Err
  tiers : List (Tier σ)
  trace : List Ev

/-- The inner copy loop of `Restore`: write `e` to each tier of the given
list in order (the caller passes the front tiers reversed, so indices count
down from `i`). A write error is appended to the error list; a write
reporting `ok=false` clears the ok flag; neither stops the loop. -/
def syncRestoreCopy (i : Nat) (e : Option Entry) : List (Tier σ) → RestoreCopyOut σ
  | [] => ⟨true, [], [], []⟩
  | t :: rest =>
    let w := t.1.write t.2 e
    let d := syncRestoreCopy (i - 1) e rest
    ⟨w.ok && d.ok,
      (match w.err with | some er => [er] | none => []) ++ d.errs,
      (t.1, w.st) :: d.tiers,
      Ev.write i e w.ok w.err :: d.trace⟩

/-- Intermediate state of the per-id loop of `Restore`. -/
structure RestoreLoopOut (σ : Type) where
  ok : Bool
  errs : List Err
  authSt : σ
  frontsRev : List (Tier σ)
  trace : List Ev

/-- The per-id loop of `Restore`: read each id from the authority. A read
error is appended to the error list and the id is skipped — NOTE: the Go
code does not clear `okResult` in this branch. A read miss clears
`okResult`. On a hit the entry is copied into the (reversed) front tiers. -/
def syncRestoreLoop (auth : DriverOps σ) (aIdx : Nat) :
    List GoStr → σ → List (Tier σ) → RestoreLoopOut σ
  | [], aSt, frontsRev => ⟨true, [], aSt, frontsRev, []⟩
  | id :: rest, aSt, frontsRev =>
    let r := auth.read aSt id
    let ev := Ev.read aIdx id r.entry r.ok r.err
    match r.err with
    | some er =>
      let d := syncRestoreLoop auth aIdx rest r.st frontsRev
      ⟨d.ok, er :: d.errs, d.authSt, d.frontsRev, ev :: d.trace⟩
    | none =>
      if r.ok then
        let c := syncRestoreCopy (aIdx - 1) r.entry frontsRev
        let d := syncRestoreLoop auth aIdx rest r.st c.tiers
        ⟨c.ok && d.ok, c.errs ++ d.errs, d.authSt, d.frontsRev,
          ev :: c.trace ++ d.trace⟩
      else
        let d := syncRestoreLoop auth aIdx rest r.st frontsRev
        ⟨false, d.errs, d.authSt, d.frontsRev, ev :: d.trace⟩

/-- Result of `SyncDriver.Restore`. -/
structure RestoreOut (σ : Type) where
  ok : Bool
  errs : List Err
  fronts : List (Tier σ)
  auth : Tier σ
  trace : List Ev

/-- `SyncDriver.Restore` (src/pkg/proxy/sync.go): scan the authority (an
error aborts with that one error, a scan `ok=false` aborts with no errors),
then run the per-id loop. -/
def syncRestore (fronts : List (Tier σ)) (auth : Tier σ) : RestoreOut σ :=
  let aIdx := fronts.length
  let s := auth.1.scan auth.2
  let sev := Ev.scan aIdx s.ids s.ok s.err
  match s.err with
  | some er => ⟨false, [er], fronts, (auth.1, s.st), [sev]⟩
  | none =>
    if s.ok then
      let l := syncRestoreLoop auth.1 aIdx s.ids s.st fronts.reverse
      ⟨l.ok, l.errs, l.frontsRev.reverse, (auth.1, l.authSt), sev :: l.trace⟩
    else ⟨false, [], fronts, (auth.1, s.st), [sev]⟩

/-! ## Frontend coordinator (src/databank.go, config in src/entry_rw.go) -/

/-- `Config` from src/entry_rw.go: the `Hot` flag and the default
`Lifetime` (a duration in nanoseconds). -/
structure Config where
  hot : Bool
  lifetime : Int
deriving DecidableEq, Repr

/-- `NewConfig()`: `Hot=false`, `Lifetime=0`. -/
def NewConfig : Config := ⟨false, 0⟩

/-- `databank.Write` (src/databank.go): recompute the entry's size, then
write through the driver (a driver error is only logged). -/
def dbWrite (ops : DriverOps σ) (st : σ) (e : Entry) : Bool × σ :=
  let w := ops.write st (some e.CalculateSize)
  (w.ok, w.st)

/-- `databank.Read` (src/databank.go): read through the driver (an error is
only logged); when the read reports ok and the databank is not hot, run the
entry's `MaybeExpire`; if it fires, write the now-expired entry back via
`databank.Write` and report a miss. (With `ok=true` and a nil entry the Go
code would dereference nil in `MaybeExpire`; that case is passed through
here and cannot arise from a well-behaved driver.) -/
def dbRead (ops : DriverOps σ) (c : Config) (st : σ) (id : GoStr) (now : Int) :
    Option Entry × Bool × σ :=
  let r := ops.read st id
  if r.ok && !c.hot then
    match r.entry with
    | some e =>
      let m := e.MaybeExpire now
      if m.1 then
        let w := dbWrite ops r.st m.2
        (none, false, w.2)
      else (some e, r.ok, r.st)
    | none => (r.entry, r.ok, r.st)
  else (r.entry, r.ok, r.st)

/-! ## Interceptor chain (src/middleware.go `installMiddleware`)

The chain is modelled for the `Read` capability; the other ten per-operation
arrays of `installMiddleware` are built by the same index recurrence.
State threading: a handler maps an id and a world `ω` to the Go results and
a new world; a middleware receives the id, the `next` continuation and the
world, exactly like `Middleware.Read(id, next)`. -/

/-- The Go results of a `Read`: `(*Entry, bool, error)`. -/
abbrev ReadResult := Option Entry × Bool × Option Err

/-- A composed read handler (an element of the `read` array built by
`installMiddleware`). -/
abbrev RHandler (ω : Type) := GoStr → ω → ReadResult × ω

/-- A middleware's `Read(id string, next func(id) ...)` method. -/
abbrev RMiddleware (ω : Type) := GoStr → RHandler ω → ω → ReadResult × ω

/-- One step of `installMiddleware`: the closure
`func(id string) ... { return m.Read(id, lread) }` appended to the `read`
array, where `lread` is the previous last element. -/
def wrapRead {ω : Type} (m : RMiddleware ω) (next : RHandler ω) : RHandler ω :=
  fun id w => m id next w

/-- The `read` chain of `installMiddleware` (src/middleware.go): the array
starts at `read[0] = d.driver.Read` and each configured middleware `m_i`
appends `read[i+1] = m_i.Read(·, read[i])`; the composed handler is the
last element, i.e. the left fold of `wrapRead` over the middleware list. -/
def installMiddlewareRead {ω : Type} (base : RHandler ω) (ms : List (RMiddleware ω)) :
    RHandler ω :=
  ms.foldl (fun h m => wrapRead m h) base

/-! ## In-memory driver fixtures (test harness; used as concrete inputs) -/

/-- A concrete driver state: an association list from ids to entries. -/
abbrev Store := List (GoStr × Entry)

/-- Look an id up in a store. -/
def lookupStore : Store → GoStr → Option Entry
  | [], _ => none
  | (k, e) :: rest, id => if k = id then some e else lookupStore rest id

/-- Remove an id from a store. -/
def eraseStore (s : Store) (id : GoStr) : Store :=
  s.filter (fun p => !(p.1 == id))

/-- Insert (or replace) an entry in a store. -/
def insertStore (s : Store) (id : GoStr) (e : Entry) : Store :=
  (id, e) :: eraseStore s id

/-- A plain in-memory driver keyed by `Entry.ID`, in the manner of the
pkg/atomic driver: reads are pure, writes insert under the entry's id,
deletes always succeed, scan lists all keys. -/
def memOps : DriverOps Store where
  read := fun s id =>
    match lookupStore s id with
    | some e => ⟨some e, true, none, s⟩
    | none => ⟨none, false, none, s⟩
  write := fun s oe =>
    match oe with
    | some e => ⟨true, none, insertStore s e.ID e⟩
    | none => ⟨false, none, s⟩
  delete := fun s id => ⟨true, none, eraseStore s id⟩
  scan := fun s => ⟨s.map Prod.fst, true, none, s⟩

/-- A fixture driver whose writes always fail with error code `ec`. -/
def failWriteOps (ec : Err) : DriverOps Store :=
  { memOps with write := fun s _ => ⟨false, some ec, s⟩ }

/-- A fixture driver whose deletes always fail with error code `ec`. -/
def failDeleteOps (ec : Err) : DriverOps Store :=
  { memOps with delete := fun s _ => ⟨false, some ec, s⟩ }

/-- A fixture driver whose reads always fail with error code `ec`. -/
def failReadOps (ec : Err) : DriverOps Store :=
  { memOps with read := fun s _ => ⟨none, false, some ec, s⟩ }

/-! ## Characterization helpers

These definitions name the per-tier results and per-tier final states that
the theorems below use to describe a whole sync-driver run. -/

/-- The result tier `t`'s read of `id` returns (in `t`'s current state). -/
def tierReadRes (id : GoStr) (t : Tier σ) : ReadRes σ := t.1.read t.2 id

/-- The result tier `t`'s write of entry `e` returns (in `t`'s current state). -/
def tierWriteRes (e : Entry) (t : Tier σ) : OpRes σ := t.1.write t.2 (some e)

/-- A missed tier after `SyncDriver.Read` fill-back: the tier read `id`
(missing it) and was then written the found entry `e`. -/
def fillTier (e : Entry) (id : GoStr) (t : Tier σ) : Tier σ :=
  (t.1, (t.1.write (tierReadRes id t).st (some e)).st)

/-- The read events of a run of misses starting at tier index `i`. -/
def missEvs (i : Nat) (id : GoStr) : List (Tier σ) → List Ev
  | [] => []
  | t :: rest =>
    Ev.read i id (tierReadRes id t).entry (tierReadRes id t).ok (tierReadRes id t).err ::
      missEvs (i + 1) id rest

/-- The fill-back write events over the missed tiers, in back-to-front
order (the deepest missed tier is written first). -/
def fillEvs (i : Nat) (e : Entry) (id : GoStr) : List (Tier σ) → List Ev
  | [] => []
  | t :: rest =>
    let w := t.1.write (tierReadRes id t).st (some e)
    fillEvs (i + 1) e id rest ++ [Ev.write i (some e) w.ok w.err]

/-- A tier after `SyncDriver.Write`'s rollback pass: if its forward write of
`e` succeeded, the prior entry `origE` is written back when present,
otherwise `id` is deleted; a tier whose forward write reported `ok=false`
is left in its post-write-attempt state. -/
def rollbackTier (origE : Option Entry) (id : GoStr) (e : Entry) (t : Tier σ) : Tier σ :=
  let w := tierWriteRes e t
  if w.ok then
    match origE with
    | some oe => (t.1, (t.1.write w.st (some oe)).st)
    | none => (t.1, (t.1.delete w.st id).st)
  else (t.1, w.st)

/-- The forward write events over tiers starting at index `i`. -/
def writeEvs (i : Nat) (e : Entry) : List (Tier σ) → List Ev
  | [] => []
  | t :: rest =>
    Ev.write i (some e) (tierWriteRes e t).ok (tierWriteRes e t).err ::
      writeEvs (i + 1) e rest

/-- The rollback events over the tiers already visited by the forward pass,
in back-to-front order; only tiers whose forward write succeeded are rolled
back (by a write of `origE` or a delete of `id`). -/
def rbEvs (i : Nat) (origE : Option Entry) (id : GoStr) (e : Entry) :
    List (Tier σ) → List Ev
  | [] => []
  | t :: rest =>
    let w := tierWriteRes e t
    rbEvs (i + 1) origE id e rest ++
      (if w.ok then
        match origE with
        | some oe =>
          [Ev.write i (some oe) (t.1.write w.st (some oe)).ok (t.1.write w.st (some oe)).err]
        | none => [Ev.delete i id (t.1.delete w.st id).ok (t.1.delete w.st id).err]
      else [])

/-! ## Spec-side description of Restore (amended claim)

`restoreSpecCopy` describes the copy pass the way the amended claim reads:
the non-authority tiers, kept in front order, are written in back-to-front
order (tier index `m-1` first, tier `0` last). Structurally it recurses on
the front-ordered list (head = tier `i`, written last), whereas the
embedding `syncRestoreCopy` iterates the reversed list the way the Go index
loop does; the equivalence is proved, not assumed. -/

/-- Spec-side copy pass of `Restore`: `l` is the non-authority tier list in
front order with head index `i`; the head tier is written last. -/
def restoreSpecCopy (i : Nat) (e : Option Entry) : List (Tier σ) → RestoreCopyOut σ
  | [] => ⟨true, [], [], []⟩
  | t :: rest =>
    let d := restoreSpecCopy (i + 1) e rest
    let w := t.1.write t.2 e
    ⟨d.ok && w.ok,
      d.errs ++ (match w.err with | some er => [er] | none => []),
      (t.1, w.st) :: d.tiers,
      d.trace ++ [Ev.write i e w.ok w.err]⟩

/-- Spec-side per-id loop of `Restore`, keeping the front tiers in front
order: read each id from the authority; a read error is aggregated and
leaves the ok flag untouched; a read miss clears the ok flag; on a hit the
entry is copied into the front tiers in back-to-front order. -/
def restoreSpecLoop (auth : DriverOps σ) (aIdx : Nat) :
    List GoStr → σ → List (Tier σ) → RestoreLoopOut σ
  | [], aSt, fronts => ⟨true, [], aSt, fronts, []⟩
  | id :: rest, aSt, fronts =>
    let r := auth.read aSt id
    let ev := Ev.read aIdx id r.entry r.ok r.err
    match r.err with
    | some er =>
      let d := restoreSpecLoop auth aIdx rest r.st fronts
      ⟨d.ok, er :: d.errs, d.authSt, d.frontsRev, ev :: d.trace⟩
    | none =>
      if r.ok then
        let c := restoreSpecCopy 0 r.entry fronts
        let d := restoreSpecLoop auth aIdx rest r.st c.tiers
        ⟨c.ok && d.ok, c.errs ++ d.errs, d.authSt, d.frontsRev,
          ev :: c.trace ++ d.trace⟩
      else
        let d := restoreSpecLoop auth aIdx rest r.st fronts
        ⟨false, d.errs, d.authSt, d.frontsRev, ev :: d.trace⟩

/-- Spec-side description of `Restore` as a whole (fronts in front order
throughout; the authority is only scanned and read, never written). -/
def restoreSpec (fronts : List (Tier σ)) (auth : Tier σ) : RestoreOut σ :=
  let aIdx := fronts.length
  let s := auth.1.scan auth.2
  let sev := Ev.scan aIdx s.ids s.ok s.err
  match s.err with
  | some er => ⟨false, [er], fronts, (auth.1, s.st), [sev]⟩
  | none =>
    if s.ok then
      let l := restoreSpecLoop auth.1 aIdx s.ids s.st fronts
      ⟨l.ok, l.errs, l.frontsRev, (auth.1, l.authSt), sev :: l.trace⟩
    else ⟨false, [], fronts, (auth.1, s.st), [sev]⟩

/-! ## Concrete fixtures used by witnesses and counterexamples -/

/-- The id/key `"k"`. -/
def kId : GoStr := [107]

/-- An entry with key `"k"`, no tags, TTL 1s, created at time 0. -/
def eK : Entry := NewEntry kId 1000000000 0

/-- A second value for key `"k"` (different content). -/
def eK2 : Entry := { eK with content := [1, 2, 3] }

/-- An entry with key `"k"`, no tags, TTL 100ms, created at time 0. -/
def eTtl : Entry := NewEntry kId 100000000 0

/-- A logging base handler for the interceptor-chain fixtures: the world is
the list of visited links; the base driver logs `0`. -/
def logBase : RHandler (List Nat) := fun _ w => ((none, false, none), w ++ [0])

/-- A cooperating interceptor: logs its tag, then invokes its continuation. -/
def logMW (tag : Nat) : RMiddleware (List Nat) :=
  fun id next w => next id (w ++ [tag])

/-- A short-circuiting interceptor: logs its tag and returns without ever
invoking its continuation. -/
def shortMW (tag : Nat) : RMiddleware (List Nat) :=
  fun _ _ w => ((none, true, none), w ++ [tag])

/-! # Theorems -/

/-! ## Entry identity: order-independence (C6) -/

/-- Go map lookup is invariant under reordering of the association list,
provided keys are distinct (as they are in a Go map). -/
theorem lookupTag_perm {t1 t2 : List (GoStr × GoStr)} (h : t1.Perm t2) :
    (t1.map Prod.fst).Nodup → ∀ q, lookupTag t1 q = lookupTag t2 q := by
  induction h with
  | nil => intro _ _; rfl
  | cons a h ih =>
    intro hn q
    obtain ⟨k, v⟩ := a
    simp only [List.map_cons, List.nodup_cons] at hn
    by_cases hq : k = q <;> simp [lookupTag, hq, ih hn.2 q]
  | swap a b l =>
    intro hn q
    obtain ⟨ka, va⟩ := a
    obtain ⟨kb, vb⟩ := b
    simp only [List.map_cons, List.nodup_cons, List.mem_cons] at hn
    by_cases h1 : kb = q
    · by_cases h2 : ka = q
      · exact absurd (h1.trans h2.symm) (fun hEq => hn.1 (Or.inl hEq))
      · simp [lookupTag, h1, h2]
    · by_cases h2 : ka = q <;> simp [lookupTag, h1, h2]
  | trans h12 h23 ih12 ih23 =>
    intro hn q
    have hn2 := ((h12.map Prod.fst).nodup_iff).mp hn
    rw [ih12 hn q, ih23 hn2 q]

/-- Folding the canonical tag string depends only on the pointwise value of
the tag lookup. -/
theorem foldl_build_congr (f g : GoStr → GoStr) (h : ∀ k, f k = g k) :
    ∀ (l : List GoStr) (s : GoStr),
      l.foldl (fun acc k => acc ++ [38] ++ k ++ [61] ++ f k) s =
        l.foldl (fun acc k => acc ++ [38] ++ k ++ [61] ++ g k) s := by
  intro l
  induction l with
  | nil => intro s; rfl
  | cons k rest ih => intro s; simp only [List.foldl_cons, h k, ih]

/-- The canonical tag string is invariant under reordering of the tag map,
provided keys are distinct. -/
theorem canonTagStr_perm {t1 t2 : List (GoStr × GoStr)} (h : t1.Perm t2)
    (hn : (t1.map Prod.fst).Nodup) : canonTagStr t1 = canonTagStr t2 := by
  simp only [canonTagStr]
  have hk : (t1.map Prod.fst).Perm (t2.map Prod.fst) := h.map Prod.fst
  have hs : (t1.map Prod.fst).insertionSort (· ≤ ·) =
      (t2.map Prod.fst).insertionSort (· ≤ ·) :=
    List.eq_of_perm_of_sorted
      ((List.perm_insertionSort _ _).trans (hk.trans (List.perm_insertionSort _ _).symm))
      (List.sorted_insertionSort _ _) (List.sorted_insertionSort _ _)
  rw [hs]
  exact foldl_build_congr _ _ (lookupTag_perm h hn) _ []

/-- C6: `EntryID(key, tags)` equals `key` exactly when `tags` is empty; two
tag mappings with the same key/value pairs in different insertion orders
yield the same ID; and for non-empty tags the ID is
`key + "_" + %d(sum64(canonical string))`, the canonical string being built
from the tag keys sorted ascending with their values. -/
theorem c6_entry_id_canonical :
    (∀ key : GoStr, EntryID key [] = key) ∧
    (∀ (key : GoStr) (t1 t2 : List (GoStr × GoStr)),
      t1.Perm t2 → (t1.map Prod.fst).Nodup → EntryID key t1 = EntryID key t2) ∧
    (∀ (key : GoStr) (tags : List (GoStr × GoStr)), tags ≠ [] →
      EntryID key tags = key ++ [95] ++ decDigits (sum64 (canonTagStr tags))) := by
  refine ⟨fun _ => rfl, ?_, ?_⟩
  · intro key t1 t2 hp hn
    cases t1 with
    | nil =>
      have h2 : t2 = [] := List.Perm.eq_nil hp.symm
      subst h2; rfl
    | cons a t1' =>
      have hlen : t2.length = (a :: t1').length := hp.length_eq.symm
      unfold EntryID
      rw [if_pos (by simp), if_pos (by rw [hlen]; simp), canonTagStr_perm hp hn]
  · intro key tags h
    unfold EntryID
    rw [if_pos (List.length_pos.mpr h)]

/-- Witness for C6: a concrete key and two orderings of the same two-tag
mapping produce the same ID, which has the hashed form; with no tags the ID
is the key itself. -/
theorem c6_entry_id_canonical_witness :
    EntryID kId [([97], [120]), ([98], [121])] =
      EntryID kId [([98], [121]), ([97], [120])] ∧
    EntryID kId [] = kId := by
  refine ⟨c6_entry_id_canonical.2.1 kId _ _ (List.Perm.swap _ _ _) (by decide), ?_⟩
  exact c6_entry_id_canonical.1 kId

/-! ## Touch (C4) -/

/-- C4 (code evaluation): `Entry.Touch` sets `created` to the touch time but
leaves `expires` unchanged, because the Go code overwrites `Created` before
computing `Lifetime() = Expires - Created`; in particular an entry created
at 0 with TTL 1s and touched at 500ms still expires at 1s, not 1.5s. -/
theorem c4_touch_keeps_absolute_expiry :
    (∀ (e : Entry) (now : Int),
      (e.Touch now).meta.created = now ∧ (e.Touch now).meta.expires = e.meta.expires) ∧
    ((NewEntry kId 1000000000 0).Touch 500000000).meta.expires = 1000000000 ∧
    500000000 + (NewEntry kId 1000000000 0).Lifetime = 1500000000 := by
  refine ⟨?_, by decide, by decide⟩
  intro e now
  constructor
  · rfl
  · simp only [Entry.Touch, Entry.Lifetime]
    omega

/-! ## ShouldExpire (C9) -/

/-- Counterexample to C9 as stated: an unexpired, finite-lifetime entry
observed at the exact instant `now = expires` — the claim asserts
`ShouldExpire` returns true there, but the code's `Expires.Before(now)` is
strict, so it returns false. -/
theorem c9_should_expire_boundary_counterexample :
    Entry.ShouldExpire (NewEntry kId 100 0) 100 = false ∧
    (NewEntry kId 100 0).meta.expired = false ∧
    (NewEntry kId 100 0).meta.expiresNever = false ∧
    (NewEntry kId 100 0).meta.expires ≤ 100 := by
  decide

/-- C9 (amended): `ShouldExpire` returns true iff the entry is not already
expired, not `expiresNever`, and the current time is strictly greater than
`expires`; at `now = expires` it returns false. -/
theorem c9_should_expire_strict (e : Entry) (now : Int) :
    (e.ShouldExpire now = true ↔
      e.meta.expired = false ∧ e.meta.expiresNever = false ∧ e.meta.expires < now) ∧
    e.ShouldExpire e.meta.expires = false := by
  constructor
  · by_cases h1 : e.meta.expired <;> by_cases h2 : e.meta.expiresNever <;>
      simp [Entry.ShouldExpire, h1, h2]
  · by_cases h1 : e.meta.expired <;> by_cases h2 : e.meta.expiresNever <;>
      simp [Entry.ShouldExpire, h1, h2]

/-- Witness for C9 (amended): a concrete entry with TTL 100 created at 0,
observed at 101 (strictly past expiry) and at its exact expiry instant. -/
theorem c9_should_expire_strict_witness :
    (Entry.ShouldExpire (NewEntry kId 100 0) 101 = true ↔
      (NewEntry kId 100 0).meta.expired = false ∧
        (NewEntry kId 100 0).meta.expiresNever = false ∧
        (NewEntry kId 100 0).meta.expires < 101) ∧
    Entry.ShouldExpire (NewEntry kId 100 0) (NewEntry kId 100 0).meta.expires = false :=
  c9_should_expire_strict (NewEntry kId 100 0) 101

/-! ## SyncDriver.Delete (C3) -/

/-- C3 (code evaluation at the failing input): two tiers, the back
(authority) tier's delete fails with error 7 while the front tier's delete
succeeds. The tiers are visited back-to-front and the aggregate ok is the
AND of the tiers' oks (false here), but the surfaced error is nil: `Delete`
returns the last element of `DeleteAggregate`'s errors slice, which is the
front tier's nil error, not the back tier's error 7. -/
theorem c3_delete_error_swallowed_eval :
    (syncDelete [(memOps, [(kId, eK)]), (failDeleteOps 7, [(kId, eK)])] kId).ok = false ∧
    (syncDelete [(memOps, [(kId, eK)]), (failDeleteOps 7, [(kId, eK)])] kId).err = none ∧
    (syncDelete [(memOps, [(kId, eK)]), (failDeleteOps 7, [(kId, eK)])] kId).trace =
      [Ev.delete 1 kId false (some 7), Ev.delete 0 kId true none] := by
  exact ⟨rfl, rfl, rfl⟩

/-! ## Interceptor chain (C5) -/

/-- C5: the composed read handler built by `installMiddleware` wraps the
previously-composed chain with the last-configured middleware, so the last
middleware runs first; for two middlewares `[A, B]` the composed handler is
`B` wrapping (`A` wrapping the base); a middleware that never invokes its
continuation determines the whole composed handler, so neither `A` nor the
base driver runs — demonstrated also on logging fixtures where only the
short-circuiting interceptor's tag is recorded. -/
theorem c5_interceptor_chain_order :
    (∀ {ω : Type} (base : RHandler ω) (ms : List (RMiddleware ω)) (m : RMiddleware ω),
      installMiddlewareRead base (ms ++ [m]) = wrapRead m (installMiddlewareRead base ms)) ∧
    (∀ {ω : Type} (base : RHandler ω) (A B : RMiddleware ω),
      installMiddlewareRead base [A, B] = wrapRead B (wrapRead A base)) ∧
    (∀ {ω : Type} (base : RHandler ω) (A : RMiddleware ω) (h : RHandler ω),
      installMiddlewareRead base [A, fun id _ w => h id w] = h) ∧
    installMiddlewareRead logBase [logMW 1, shortMW 2] kId [] = ((none, true, none), [2]) := by
  refine ⟨?_, ?_, ?_, rfl⟩
  · intro ω base ms m
    simp [installMiddlewareRead, List.foldl_append]
  · intro ω base A B
    rfl
  · intro ω base A h
    rfl

/-! ## SyncDriver.Read fill-back (C2) -/

/-- Characterization of `SyncDriver.Read` on a hit after a run of misses:
the result is the found entry with `ok=true` and no error; each missed tier
ends in the state reached by its read followed by a fill-back write of the
found entry; tiers after the hit tier are never consulted; the trace is the
front-to-back reads followed by the fill-back writes in back-to-front
order over the missed tiers. -/
theorem syncReadAux_hit (i : Nat) (ts1 : List (Tier σ)) (t : Tier σ) (ts2 : List (Tier σ))
    (id : GoStr) (e : Entry)
    (h1 : ∀ u ∈ ts1, (tierReadRes id u).err = none ∧ (tierReadRes id u).ok = false)
    (h2 : (tierReadRes id t).err = none)
    (h3 : (tierReadRes id t).ok = true)
    (h4 : (tierReadRes id t).entry = some e) :
    syncReadAux i (ts1 ++ t :: ts2) id =
      ⟨some e, true, none,
        ts1.map (fillTier e id) ++ (t.1, (tierReadRes id t).st) :: ts2,
        missEvs i id ts1 ++
          Ev.read (i + ts1.length) id (some e) true none :: fillEvs i e id ts1⟩ := by
  simp only [tierReadRes] at h2 h3 h4
  induction ts1 generalizing i with
  | nil =>
    simp [syncReadAux, h2, h3, h4, missEvs, fillEvs, tierReadRes]
  | cons u us ih =>
    have hu := h1 u (List.mem_cons_self u us)
    simp only [tierReadRes] at hu
    have hus : ∀ v ∈ us, (tierReadRes id v).err = none ∧ (tierReadRes id v).ok = false :=
      fun v hv => h1 v (List.mem_cons_of_mem u hv)
    have harith : i + 1 + us.length = i + (us.length + 1) := by omega
    simp only [List.cons_append, syncReadAux, hu.1, hu.2, Bool.false_eq_true, if_false,
      List.append_eq]
    rw [ih (i + 1) hus]
    simp only [tierReadRes, fillTier, List.map_cons, missEvs, fillEvs, harith]
    simp [List.append_assoc]
    exact ⟨hu.2, hu.1.symm⟩

/-- C2: when the first tiers all miss (`ok=false`, no error) and the next
tier holds the entry, `SyncDriver.Read` returns that entry with `ok=true`
and no error, writes it back into each missed tier (their other results are
ignored), performs the fill-back writes in back-to-front order among the
missed tiers, and never consults the tiers behind the hit. -/
theorem c2_read_fillback (ts1 : List (Tier σ)) (t : Tier σ) (ts2 : List (Tier σ))
    (id : GoStr) (e : Entry)
    (h1 : ∀ u ∈ ts1, (tierReadRes id u).err = none ∧ (tierReadRes id u).ok = false)
    (h2 : (tierReadRes id t).err = none)
    (h3 : (tierReadRes id t).ok = true)
    (h4 : (tierReadRes id t).entry = some e) :
    syncRead (ts1 ++ t :: ts2) id =
      ⟨some e, true, none,
        ts1.map (fillTier e id) ++ (t.1, (tierReadRes id t).st) :: ts2,
        missEvs 0 id ts1 ++
          Ev.read ts1.length id (some e) true none :: fillEvs 0 e id ts1⟩ := by
  have h := syncReadAux_hit 0 ts1 t ts2 id e h1 h2 h3 h4
  rw [Nat.zero_add] at h
  exact h

/-- Witness for C2: a two-tier driver where only the back tier holds
`"k"` — the read is a hit, and as a side effect the front tier's store now
also holds `"k"` (cache fill-back). -/
theorem c2_read_fillback_witness :
    (syncRead [((memOps : DriverOps Store), ([] : Store)), (memOps, [(kId, eK)])] kId).entry
        = some eK ∧
    (syncRead [((memOps : DriverOps Store), ([] : Store)), (memOps, [(kId, eK)])] kId).ok
        = true ∧
    (syncRead [((memOps : DriverOps Store), ([] : Store)), (memOps, [(kId, eK)])] kId).err
        = none ∧
    (syncRead [((memOps : DriverOps Store), ([] : Store)), (memOps, [(kId, eK)])] kId).tiers.map
        Prod.snd = [[(kId, eK)], [(kId, eK)]] ∧
    lookupStore [(kId, eK)] kId = some eK := by
  have h := c2_read_fillback [((memOps : DriverOps Store), ([] : Store))]
    (memOps, [(kId, eK)]) [] kId eK
    (by
      intro u hu
      rw [List.mem_singleton] at hu
      subst hu
      exact ⟨rfl, rfl⟩)
    rfl rfl rfl
  simp only [List.cons_append, List.nil_append] at h
  rw [h]
  exact ⟨rfl, rfl, rfl, rfl, rfl⟩

/-! ## SyncDriver.Write rollback (C1) -/

/-- Characterization of the forward write pass when a tier's write errors:
the loop stops at the erroring tier (later tiers untouched and never
written), the result is `ok=false` with that error, and every earlier tier
whose write succeeded is rolled back in back-to-front order (restore
`origE` if present, else delete); rollback results do not affect the
returned ok/error. -/
theorem syncWriteLoop_err (i : Nat) (ts1 : List (Tier σ)) (t : Tier σ) (ts2 : List (Tier σ))
    (e : Entry) (id : GoStr) (origE : Option Entry) (er : Err)
    (h1 : ∀ u ∈ ts1, (tierWriteRes e u).err = none)
    (h2 : (tierWriteRes e t).err = some er) :
    syncWriteLoop i e id origE (ts1 ++ t :: ts2) =
      ⟨false, some er,
        ts1.map (rollbackTier origE id e) ++ (t.1, (tierWriteRes e t).st) :: ts2,
        writeEvs i e ts1 ++
          Ev.write (i + ts1.length) (some e) (tierWriteRes e t).ok (some er) ::
            rbEvs i origE id e ts1⟩ := by
  simp only [tierWriteRes] at h2
  induction ts1 generalizing i with
  | nil =>
    simp [syncWriteLoop, h2, writeEvs, rbEvs, tierWriteRes]
  | cons u us ih =>
    have hu := h1 u (List.mem_cons_self u us)
    simp only [tierWriteRes] at hu
    have hus : ∀ v ∈ us, (tierWriteRes e v).err = none :=
      fun v hv => h1 v (List.mem_cons_of_mem u hv)
    have harith : i + 1 + us.length = i + (us.length + 1) := by omega
    simp only [List.cons_append, syncWriteLoop, hu, List.append_eq]
    rw [ih (i + 1) hus]
    simp only [rollbackTier, tierWriteRes, List.map_cons, writeEvs, rbEvs, harith]
    cases hok : (u.1.write u.2 (some e)).ok with
    | true =>
      cases origE with
      | some oe => simp [List.append_assoc, hu]
      | none => simp [List.append_assoc, hu]
    | false => simp [List.append_assoc, hu]

/-- C1: if, after the preliminary read of the entry's prior value succeeds
without error, some tier's write of the entry returns a non-nil error while
all earlier tiers' writes return nil errors, then `SyncDriver.Write`
returns `ok=false` with that error, never touches the tiers behind the
erroring one, and rolls every tier that had reported a successful write
back to the prior value (restored if the preliminary read found one,
deleted otherwise) in back-to-front order; rollback results are ignored. -/
theorem c1_write_error_rollback (ts : List (Tier σ)) (e : Entry)
    (ts1 : List (Tier σ)) (t : Tier σ) (ts2 : List (Tier σ)) (er : Err)
    (hR : (syncRead ts e.ID).err = none)
    (hsplit : (syncRead ts e.ID).tiers = ts1 ++ t :: ts2)
    (h1 : ∀ u ∈ ts1, (tierWriteRes e u).err = none)
    (h2 : (tierWriteRes e t).err = some er) :
    syncWrite ts e =
      ⟨false, some er,
        ts1.map (rollbackTier (syncRead ts e.ID).entry e.ID e) ++
          (t.1, (tierWriteRes e t).st) :: ts2,
        (syncRead ts e.ID).trace ++
          (writeEvs 0 e ts1 ++
            Ev.write ts1.length (some e) (tierWriteRes e t).ok (some er) ::
              rbEvs 0 (syncRead ts e.ID).entry e.ID e ts1)⟩ := by
  have h := syncWriteLoop_err 0 ts1 t ts2 e e.ID (syncRead ts e.ID).entry er h1 h2
  rw [Nat.zero_add] at h
  simp only [syncWrite, hR]
  rw [hsplit, h]

/-- Witness for C1: a two-tier driver with both stores empty; the front
tier's write succeeds, the back tier's write fails with error 9. The
overall result is `ok=false` with error 9, and since the preliminary read
found no prior value, the front tier's freshly written entry is deleted
again: both stores end empty. -/
theorem c1_write_error_rollback_witness :
    (syncWrite [((memOps : DriverOps Store), ([] : Store)), (failWriteOps 9, [])] eK).ok
        = false ∧
    (syncWrite [((memOps : DriverOps Store), ([] : Store)), (failWriteOps 9, [])] eK).err
        = some 9 ∧
    (syncWrite [((memOps : DriverOps Store), ([] : Store)), (failWriteOps 9, [])] eK).tiers.map
        Prod.snd = [[], []] ∧
    (syncWrite [((memOps : DriverOps Store), ([] : Store)), (failWriteOps 9, [])] eK).trace =
      [Ev.read 0 eK.ID none false none, Ev.read 1 eK.ID none false none,
        Ev.write 0 (some eK) true none, Ev.write 1 (some eK) false (some 9),
        Ev.delete 0 eK.ID true none] := by
  have h := c1_write_error_rollback
    [((memOps : DriverOps Store), ([] : Store)), (failWriteOps 9, [])] eK
    [((memOps : DriverOps Store), ([] : Store))] (failWriteOps 9, []) [] 9
    rfl rfl
    (by
      intro u hu
      rw [List.mem_singleton] at hu
      subst hu
      rfl)
    rfl
  rw [h]
  exact ⟨rfl, rfl, rfl, rfl⟩

/-! ## SyncDriver.Expire on a miss (C10) -/

/-- `SyncDriver.Read` only reports a present entry together with `ok=true`. -/
theorem syncReadAux_ok_of_entry (i : Nat) (ts : List (Tier σ)) (id : GoStr) :
    (syncReadAux i ts id).ok = false → (syncReadAux i ts id).entry = none := by
  induction ts generalizing i with
  | nil => intro _; rfl
  | cons t rest ih =>
    intro h
    simp only [syncReadAux] at h ⊢
    cases herr : (t.1.read t.2 id).err with
    | some er => simp [herr]
    | none =>
      simp only [herr] at h ⊢
      cases hok : (t.1.read t.2 id).ok with
      | true =>
        simp only [hok, if_true] at h ⊢
        cases hent : (t.1.read t.2 id).entry with
        | some found => simp [hent] at h
        | none => simp [hent]
      | false =>
        simp only [hok, Bool.false_eq_true, if_false] at h ⊢
        cases hd : (syncReadAux (i + 1) rest id).entry with
        | some found => simp [hd] at h
        | none => simp [hd]

/-- When `SyncDriver.Read` finds no entry, its trace consists of read calls
only: no write (fill-back) or delete is performed on any tier. -/
theorem syncReadAux_miss_trace (i : Nat) (ts : List (Tier σ)) (id : GoStr) :
    (syncReadAux i ts id).entry = none →
      (syncReadAux i ts id).trace.all Ev.isRead = true := by
  induction ts generalizing i with
  | nil => intro _; rfl
  | cons t rest ih =>
    intro h
    simp only [syncReadAux] at h ⊢
    cases herr : (t.1.read t.2 id).err with
    | some er => simp [herr, Ev.isRead]
    | none =>
      simp only [herr] at h ⊢
      cases hok : (t.1.read t.2 id).ok with
      | true =>
        simp only [hok, if_true] at h ⊢
        cases hent : (t.1.read t.2 id).entry with
        | some found => simp [hent] at h
        | none => simp [hent, Ev.isRead]
      | false =>
        simp only [hok, Bool.false_eq_true, if_false] at h ⊢
        cases hd : (syncReadAux (i + 1) rest id).entry with
        | some found => simp [hd] at h
        | none =>
          simp only [hd, List.all_cons, Ev.isRead, Bool.true_and]
          exact ih (i + 1) (by rw [hd])

/-- When `SyncDriver.Read` finds no entry and every tier's read leaves its
state unchanged, the tier list is returned unchanged. -/
theorem syncReadAux_miss_tiers (i : Nat) (ts : List (Tier σ)) (id : GoStr)
    (hp : ∀ u ∈ ts, ∀ (s : σ) (j : GoStr), (u.1.read s j).st = s) :
    (syncReadAux i ts id).entry = none → (syncReadAux i ts id).tiers = ts := by
  induction ts generalizing i with
  | nil => intro _; rfl
  | cons t rest ih =>
    intro h
    have hpt := hp t (List.mem_cons_self t rest) t.2 id
    have hprest : ∀ u ∈ rest, ∀ (s : σ) (j : GoStr), (u.1.read s j).st = s :=
      fun u hu => hp u (List.mem_cons_of_mem t hu)
    simp only [syncReadAux] at h ⊢
    cases herr : (t.1.read t.2 id).err with
    | some er => simp [herr, hpt]
    | none =>
      simp only [herr] at h ⊢
      cases hok : (t.1.read t.2 id).ok with
      | true =>
        simp only [hok, if_true] at h ⊢
        cases hent : (t.1.read t.2 id).entry with
        | some found => simp [hent] at h
        | none => simp [hent, hpt]
      | false =>
        simp only [hok, Bool.false_eq_true, if_false] at h ⊢
        cases hd : (syncReadAux (i + 1) rest id).entry with
        | some found => simp [hd] at h
        | none =>
          simp only [hd, hpt, List.cons.injEq, true_and]
          exact ih (i + 1) hprest (by rw [hd])

/-- C10: when `SyncDriver.Read(id)` reports a miss with no error,
`SyncDriver.Expire(id)` returns `(true, nil)`, its trace is exactly the
read trace — which contains no write or delete on any tier — and, whenever
the tiers' reads are state-preserving, every tier's state is unchanged. -/
theorem c10_expire_clean_miss (ts : List (Tier σ)) (id : GoStr)
    (hok : (syncRead ts id).ok = false)
    (herr : (syncRead ts id).err = none) :
    syncExpire ts id = ⟨true, none, (syncRead ts id).tiers, (syncRead ts id).trace⟩ ∧
    (syncRead ts id).trace.all Ev.isRead = true ∧
    ((∀ u ∈ ts, ∀ (s : σ) (j : GoStr), (u.1.read s j).st = s) →
      (syncRead ts id).tiers = ts) := by
  have hent : (syncRead ts id).entry = none := syncReadAux_ok_of_entry 0 ts id hok
  refine ⟨?_, syncReadAux_miss_trace 0 ts id hent,
    fun hp => syncReadAux_miss_tiers 0 ts id hp hent⟩
  simp [syncExpire, herr, hok]

/-- Witness for C10: a two-tier in-memory driver with empty stores; expiring
an absent id returns `(true, nil)`, traces two reads and nothing else, and
leaves both tiers unchanged. -/
theorem c10_expire_clean_miss_witness :
    syncExpire [((memOps : DriverOps Store), ([] : Store)), (memOps, [])] kId =
      ⟨true, none,
        (syncRead [((memOps : DriverOps Store), ([] : Store)), (memOps, [])] kId).tiers,
        (syncRead [((memOps : DriverOps Store), ([] : Store)), (memOps, [])] kId).trace⟩ ∧
    (syncRead [((memOps : DriverOps Store), ([] : Store)), (memOps, [])] kId).trace.all
        Ev.isRead = true ∧
    (syncRead [((memOps : DriverOps Store), ([] : Store)), (memOps, [])] kId).tiers =
      [((memOps : DriverOps Store), ([] : Store)), (memOps, [])] := by
  have h := c10_expire_clean_miss
    [((memOps : DriverOps Store), ([] : Store)), (memOps, [])] kId rfl rfl
  refine ⟨h.1, h.2.1, h.2.2 ?_⟩
  intro u hu s j
  rw [List.mem_cons, List.mem_singleton] at hu
  cases hu with
  | inl h1 =>
    subst h1
    cases hl : lookupStore s j <;> simp [memOps, hl]
  | inr h1 =>
    subst h1
    cases hl : lookupStore s j <;> simp [memOps, hl]

/-! ## Frontend lazy expiration (C8) -/

/-- C8: with `Hot=false`, when the driver's read returns an entry with
`ok=true` and the entry's `MaybeExpire` fires, the coordinator writes the
now-expired entry (sticky flag set, size recomputed) back through the
driver and returns `(nil, false)` — a miss — even though the backend still
holds the record. -/
theorem c8_cold_read_lazy_expire (ops : DriverOps σ) (c : Config) (st : σ) (id : GoStr)
    (now : Int) (e : Entry)
    (hhot : c.hot = false)
    (hok : (ops.read st id).ok = true)
    (hent : (ops.read st id).entry = some e)
    (hfire : e.ShouldExpire now = true) :
    dbRead ops c st id now =
      (none, false, (ops.write (ops.read st id).st (some e.Expire.CalculateSize)).st) := by
  simp [dbRead, dbWrite, Entry.MaybeExpire, hhot, hok, hent, hfire]

/-- Witness for C8: an entry with TTL 100ms created at time 0, read at time
200ms through a cold (`Hot=false`) databank over the in-memory driver: the
read is reported as a miss, yet the store still holds the record, now with
`expired=true`; read at time 50ms the same entry is a hit. -/
theorem c8_cold_read_lazy_expire_witness :
    dbRead memOps NewConfig [(kId, eTtl)] kId 200000000 =
      (none, false,
        (memOps.write (memOps.read [(kId, eTtl)] kId).st
          (some eTtl.Expire.CalculateSize)).st) ∧
    lookupStore (dbRead memOps NewConfig [(kId, eTtl)] kId 200000000).2.2 kId =
      some eTtl.Expire.CalculateSize ∧
    eTtl.Expire.CalculateSize.meta.expired = true ∧
    (dbRead memOps NewConfig [(kId, eTtl)] kId 50000000).2.1 = true := by
  have h := c8_cold_read_lazy_expire memOps NewConfig [(kId, eTtl)] kId 200000000 eTtl
    rfl rfl rfl (by decide)
  exact ⟨h, by rw [h]; decide, by decide, by decide⟩

/-! ## SyncDriver.Restore (C7) -/

/-- The copy pass touches exactly the tiers it is given. -/
theorem restoreSpecCopy_length (i : Nat) (e : Option Entry) (l : List (Tier σ)) :
    (restoreSpecCopy i e l).tiers.length = l.length := by
  induction l generalizing i with
  | nil => rfl
  | cons t rest ih => simp [restoreSpecCopy, ih]

/-- Peeling the last tier off the Go-shaped copy pass. -/
theorem syncRestoreCopy_snoc (i : Nat) (e : Option Entry) (l : List (Tier σ)) (t : Tier σ) :
    syncRestoreCopy i e (l ++ [t]) =
      ⟨(syncRestoreCopy i e l).ok && (t.1.write t.2 e).ok,
        (syncRestoreCopy i e l).errs ++
          (match (t.1.write t.2 e).err with | some er => [er] | none => []),
        (syncRestoreCopy i e l).tiers ++ [(t.1, (t.1.write t.2 e).st)],
        (syncRestoreCopy i e l).trace ++
          [Ev.write (i - l.length) e (t.1.write t.2 e).ok (t.1.write t.2 e).err]⟩ := by
  induction l generalizing i with
  | nil => simp [syncRestoreCopy]
  | cons u rest ih =>
    have hidx : i - 1 - rest.length = i - (rest.length + 1) := by omega
    simp only [List.cons_append, syncRestoreCopy, List.append_eq]
    rw [ih (i - 1)]
    simp [Bool.and_assoc, List.append_assoc, hidx]

/-- The Go-shaped copy pass, run on the reversed front tiers with the
descending start index used by `Restore`, computes precisely the spec-side
back-to-front copy pass over the front-ordered tiers. -/
theorem syncRestoreCopy_reverse (e : Option Entry) (fronts : List (Tier σ)) (i : Nat) :
    syncRestoreCopy (i + fronts.length - 1) e fronts.reverse =
      ⟨(restoreSpecCopy i e fronts).ok, (restoreSpecCopy i e fronts).errs,
        (restoreSpecCopy i e fronts).tiers.reverse, (restoreSpecCopy i e fronts).trace⟩ := by
  induction fronts generalizing i with
  | nil => simp [syncRestoreCopy, restoreSpecCopy]
  | cons u rest ih =>
    have ihh := ih (i + 1)
    have h2 : i + 1 + rest.length - 1 = i + rest.length := by omega
    rw [h2] at ihh
    have h1 : i + (u :: rest).length - 1 = i + rest.length := by
      simp only [List.length_cons]
      omega
    rw [List.reverse_cons, h1, syncRestoreCopy_snoc, ihh]
    simp only [restoreSpecCopy]
    simp [List.length_reverse, Nat.add_sub_cancel]

/-- The Go-shaped per-id loop of `Restore`, run on the reversed front
tiers, computes the spec-side per-id loop on the front-ordered tiers
(whose `frontsRev` field then holds the fronts in front order). -/
theorem syncRestoreLoop_spec (auth : DriverOps σ) (aIdx : Nat) (ids : List GoStr) :
    ∀ (aSt : σ) (fronts : List (Tier σ)), fronts.length = aIdx →
      syncRestoreLoop auth aIdx ids aSt fronts.reverse =
        ⟨(restoreSpecLoop auth aIdx ids aSt fronts).ok,
          (restoreSpecLoop auth aIdx ids aSt fronts).errs,
          (restoreSpecLoop auth aIdx ids aSt fronts).authSt,
          (restoreSpecLoop auth aIdx ids aSt fronts).frontsRev.reverse,
          (restoreSpecLoop auth aIdx ids aSt fronts).trace⟩ := by
  induction ids with
  | nil =>
    intro aSt fronts hlen
    rfl
  | cons id rest ih =>
    intro aSt fronts hlen
    subst hlen
    simp only [syncRestoreLoop, restoreSpecLoop]
    cases herr : (auth.read aSt id).err with
    | some er =>
      rw [ih (auth.read aSt id).st fronts rfl]
    | none =>
      cases hok : (auth.read aSt id).ok with
      | false =>
        simp only [hok, Bool.false_eq_true, if_false]
        rw [ih (auth.read aSt id).st fronts rfl]
      | true =>
        simp only [hok, if_true]
        have hcopy := syncRestoreCopy_reverse (auth.read aSt id).entry fronts 0
        rw [Nat.zero_add] at hcopy
        rw [hcopy]
        rw [ih (auth.read aSt id).st (restoreSpecCopy 0 (auth.read aSt id).entry fronts).tiers
          (restoreSpecCopy_length 0 (auth.read aSt id).entry fronts)]

/-- C7 (amended): `Restore` scans the authority, reads every scanned id
from the authority, and copies each retrieved entry into the non-authority
tiers in back-to-front order (tier `N-2` first, tier `0` last), never
writing to the authority; errors are aggregated and do not stop the per-id
iteration; the returned flag is true only when every id's read and every
copy write reported ok — an authority read that errors contributes its
error to the list but leaves the flag untouched. All of this is captured by
`restoreSpec`, whose copy pass is literally back-to-front over the
front-ordered tiers and never touches the authority. -/
theorem c7_restore_back_to_front (fronts : List (Tier σ)) (auth : Tier σ) :
    syncRestore fronts auth = restoreSpec fronts auth := by
  simp only [syncRestore, restoreSpec]
  cases hs : (auth.1.scan auth.2).err with
  | some er => rfl
  | none =>
    cases hok : (auth.1.scan auth.2).ok with
    | false => simp [hok]
    | true =>
      simp only [hok, if_true]
      rw [syncRestoreLoop_spec auth.1 fronts.length (auth.1.scan auth.2).ids
        (auth.1.scan auth.2).st fronts rfl]
      simp [List.reverse_reverse]

/-- Counterexample to C7 as stated: (a) with two front tiers and an
authority holding one entry, the copy writes hit tier 1 before tier 0 —
back-to-front, not the claimed front-to-back; (b) when the authority's read
of a scanned id errors, `Restore` still returns `ok=true` (the error is
only aggregated), contradicting the claim that the flag is true only if
every entry was successfully retrieved and copied. -/
theorem c7_restore_counterexample :
    (syncRestore [((memOps : DriverOps Store), ([] : Store)), (memOps, [])]
        (memOps, [(kId, eK)])).trace =
      [Ev.scan 2 [kId] true none, Ev.read 2 kId (some eK) true none,
        Ev.write 1 (some eK) true none, Ev.write 0 (some eK) true none] ∧
    (syncRestore [((memOps : DriverOps Store), ([] : Store))]
        (failReadOps 5, [(kId, eK)])).ok = true ∧
    (syncRestore [((memOps : DriverOps Store), ([] : Store))]
        (failReadOps 5, [(kId, eK)])).errs = [5] :=
  ⟨rfl, rfl, rfl⟩

end Databank
